import Mathlib

/-!
Verification of the Web3-Study tree text rewriter scripts
(`src/NextSwapDex/fix_revert.py` and `src/NextSwapDex/fix_solidity_version.py`).

Both scripts walk a directory tree, apply a regular-expression substitution
to the content of every file whose name ends in `.sol`, and write a file
back (reporting it on the console) exactly when the substituted content
differs from the original.

The embedding models:
  * `re.sub` for the two concrete rules used by the scripts, as a leftmost,
    non-overlapping, single-pass scan over the character list
    (`revertSubFuel` / `pragmaSubFuel`);
  * the per-file processing (read, substitute, conditional write, report)
    as `processOne`, producing the new file state and a trace of I/O events;
  * the directory walk as `osWalkFiles` over an abstract file system.
-/

namespace Web3Study

/-! ### Character classes of the regex `revert([A-Z][a-zA-Z0-9]*)\(\);` -/

/-- The regex class `[A-Z]`: ASCII uppercase letters. -/
def isUpperAZ (c : Char) : Bool := 'A' ≤ c && c ≤ 'Z'

/-- The regex class `[a-zA-Z0-9]`: ASCII letters and digits. -/
def isAlnumAZ09 (c : Char) : Bool :=
  ('a' ≤ c && c ≤ 'z') || ('A' ≤ c && c ≤ 'Z') || ('0' ≤ c && c ≤ '9')

/-- Consume an exact literal at the head of `cs`; return the rest on success. -/
def dropLit : List Char → List Char → Option (List Char)
  | [], cs => some cs
  | _ :: _, [] => none
  | l :: ls, c :: cs => if c == l then dropLit ls cs else none

def revertKw : List Char := "revert".data

def closeParens : List Char := "();".data

/-- Match the regex `revert([A-Z][a-zA-Z0-9]*)\(\);` at the head of `cs`
(`fix_revert.py`, line 8).  Since `(`, `)`, `;` are not in `[a-zA-Z0-9]`,
the greedy star consumes exactly the maximal alphanumeric run and no
backtracking can succeed, so the match is: the literal `revert`, one
uppercase letter, the maximal alphanumeric run, then the literal `();`.
Returns `(captured group 1, remainder after the match)`. -/
def matchRevertAt (cs : List Char) : Option (List Char × List Char) :=
  match dropLit revertKw cs with
  | none => none
  | some cs1 =>
    match cs1 with
    | [] => none
    | c :: cs2 =>
      if isUpperAZ c then
        match dropLit closeParens (cs2.dropWhile isAlnumAZ09) with
        | none => none
        | some rest => some (c :: cs2.takeWhile isAlnumAZ09, rest)
      else none

/-- The replacement template `revert \1();` instantiated at group `grp`. -/
def revertTemplate (grp : List Char) : List Char :=
  "revert ".data ++ grp ++ "();".data

/-- `re.sub(pattern, r'revert \1();', ·)` as a leftmost non-overlapping scan
(`fix_revert.py`, line 21).  The fuel argument bounds the recursion; any
fuel `≥` the list length gives the function's value (every match consumes
at least one character). -/
def revertSubFuel : Nat → List Char → List Char
  | 0, cs => cs
  | _ + 1, [] => []
  | n + 1, c :: cs =>
    match matchRevertAt (c :: cs) with
    | some (grp, rest) => revertTemplate grp ++ revertSubFuel n rest
    | none => c :: revertSubFuel n cs

/-- The revert-spacing substitution on strings. -/
def revertSub (s : String) : String := ⟨revertSubFuel s.data.length s.data⟩

/-! ### The pragma rule of `fix_solidity_version.py` -/

/-- The pattern `pragma solidity =0\.8\.15;` — a literal string once the
escaped dots are resolved. -/
def pragmaPat : List Char := "pragma solidity =0.8.15;".data

/-- The replacement `pragma solidity ^0.8.20;`. -/
def pragmaRepl : List Char := "pragma solidity ^0.8.20;".data

/-- `re.sub(r"pragma solidity =0\.8\.15;", "pragma solidity ^0.8.20;", ·)`
as a leftmost non-overlapping scan (`fix_solidity_version.py`, lines 18-20). -/
def pragmaSubFuel : Nat → List Char → List Char
  | 0, cs => cs
  | _ + 1, [] => []
  | n + 1, c :: cs =>
    if pragmaPat.isPrefixOf (c :: cs) then
      pragmaRepl ++ pragmaSubFuel n (List.drop pragmaPat.length (c :: cs))
    else c :: pragmaSubFuel n cs

/-- The pragma substitution on strings. -/
def pragmaSub (s : String) : String := ⟨pragmaSubFuel s.data.length s.data⟩

/-! ### Occurrence predicates -/

/-- `occursIn p cs`: some suffix of `cs` starts with `p`
(i.e. `p` occurs as a substring of `cs`). -/
def occursIn (p : List Char) : List Char → Bool
  | [] => p.isPrefixOf []
  | c :: cs => p.isPrefixOf (c :: cs) || occursIn p cs

/-- The revert regex matches somewhere in `cs`. -/
def hasRevertMatch : List Char → Bool
  | [] => false
  | c :: cs => (matchRevertAt (c :: cs)).isSome || hasRevertMatch cs

/-! ### File model and the per-file processing of both scripts -/

/-- A file reachable by the walk: its directory, its bare name (as produced
by `os.walk` in `files`), and its content. -/
structure SimFile where
  dir : String
  name : String
  content : String

deriving instance DecidableEq for SimFile

/-- `os.path.join(root, file)` — concatenation with the path separator
(the scripts run on Windows paths, separator `\`). -/
def filePath (f : SimFile) : String := f.dir ++ "\\" ++ f.name

/-- Observable I/O actions of one run: file reads, file writes, console
prints. -/
inductive Event where
  | read : String → Event
  | write : String → String → Event
  | print : String → Event

deriving instance DecidableEq for Event

/-- Python's `str.endswith`: exact, case-sensitive suffix comparison
(`fix_revert.py` line 13, `fix_solidity_version.py` line 10). -/
def endswith (s suf : String) : Bool := suf.data.isSuffixOf s.data

/-- Processing of a single walked file by either script: if its name ends
with `.sol`, read it, apply the substitution, and — exactly when the result
differs from the original — write the new content back and print the report
line; otherwise the file is not touched at all. Returns the file's state
after the script and the trace of I/O events. -/
def processOne (sub : String → String) (report : String → String)
    (f : SimFile) : SimFile × List Event :=
  if endswith f.name ".sol" then
    let c := f.content
    let nc := sub c
    if nc = c then (f, [Event.read (filePath f)])
    else (SimFile.mk f.dir f.name nc,
      [Event.read (filePath f), Event.write (filePath f) nc,
       Event.print (report (filePath f))])
  else (f, [])

/-- Process every walked file in order, collecting resulting file states and
the concatenated event trace. -/
def runRewriter (sub : String → String) (report : String → String) :
    List SimFile → List SimFile × List Event
  | [] => ([], [])
  | f :: fs =>
    let r := processOne sub report f
    let rs := runRewriter sub report fs
    (r.1 :: rs.1, r.2 ++ rs.2)

/-- An abstract file system: the set of existing directories and the files
they contain. -/
structure FileSys where
  dirs : List String
  files : List SimFile

/-- `d` is `root` itself or a descendant directory of it. -/
def dirUnder (root d : String) : Bool :=
  d == root || (root ++ "\\").data.isPrefixOf d.data

/-- `os.walk(root)` restricted to what the scripts use: the files of the
subtree rooted at `root`, in walk order.  When `root` does not exist,
`os.walk` yields no triples at all (it raises no error with the default
`onerror=None`), so the walk produces no files. -/
def osWalkFiles (fs : FileSys) (root : String) : List SimFile :=
  if fs.dirs.contains root then fs.files.filter (fun f => dirUnder root f.dir)
  else []

def reportFixed (p : String) : String := "Fixed " ++ p

def reportUpdated (p : String) : String := "Updated: " ++ p

/-- The hard-coded root of `fix_revert.py` (line 5). -/
def contracts_dir : String := "E:\\ReactWorkplace\\Web3-Study\\NextSwapDex\\contracts"

/-- The hard-coded root of `fix_solidity_version.py` (line 5). -/
def periphery_dir : String := "contracts\\contract\\swap\\periphery"

/-- The whole `fix_revert.py` run over a file system. -/
def fixRevertScript (fs : FileSys) : List SimFile × List Event :=
  runRewriter revertSub reportFixed (osWalkFiles fs contracts_dir)

/-- The whole `fix_solidity_version.py` run: the rewrite pass followed by
the unconditional final `print("Done!")` (line 28). -/
def fixSolidityScript (fs : FileSys) : List SimFile × List Event :=
  let r := runRewriter pragmaSub reportUpdated (osWalkFiles fs periphery_dir)
  (r.1, r.2 ++ [Event.print "Done!"])

/-- The console lines of an event trace, in order. -/
def printsOf : List Event → List String
  | [] => []
  | Event.print s :: es => s :: printsOf es
  | Event.read _ :: es => printsOf es
  | Event.write _ _ :: es => printsOf es

/-- Whether an event trace contains a file write. -/
def hasWriteEvent : List Event → Bool
  | [] => false
  | Event.write _ _ :: _ => true
  | Event.read _ :: es => hasWriteEvent es
  | Event.print _ :: es => hasWriteEvent es

/-- A walked file the script rewrites: it passes the extension filter and
the substitution changes its content. -/
def modifiedB (sub : String → String) (f : SimFile) : Bool :=
  endswith f.name ".sol" && !(decide (sub f.content = f.content))

/-! ### Helper lemmas about the Boolean substring machinery -/

theorem dropLit_some_length : ∀ (ls cs out : List Char),
    dropLit ls cs = some out → out.length + ls.length = cs.length := by
  intro ls
  induction ls with
  | nil =>
    intro cs out h
    simp [dropLit] at h
    simp [h]
  | cons l ls ih =>
    intro cs out h
    cases cs with
    | nil => simp [dropLit] at h
    | cons c cs =>
      simp only [dropLit] at h
      by_cases hc : (c == l) = true
      · rw [if_pos hc] at h
        have := ih cs out h
        simp [List.length]
        omega
      · rw [if_neg hc] at h
        exact absurd h (by simp)

theorem isPre_append_left : ∀ (x y z : List Char), x.length ≤ y.length →
    x.isPrefixOf (y ++ z) = true → x.isPrefixOf y = true := by
  intro x
  induction x with
  | nil => intro y z _ _; simp
  | cons a x ih =>
    intro y z hlen hp
    cases y with
    | nil => simp at hlen
    | cons b y =>
      simp only [List.cons_append, List.isPrefixOf, Bool.and_eq_true] at hp ⊢
      exact ⟨hp.1, ih y z (by simpa using hlen) hp.2⟩

/-! ### The pragma rule: general lemmas -/

theorem pragmaPat_cons : pragmaPat = 'p' :: List.drop 1 pragmaPat := rfl

/-- Occurrence-free text is a fixed point of the pragma substitution,
for any amount of fuel. -/
theorem pragma_noOcc_id : ∀ (n : Nat) (cs : List Char),
    occursIn pragmaPat cs = false → pragmaSubFuel n cs = cs := by
  intro n
  induction n with
  | zero => intro cs _; rfl
  | succ n ih =>
    intro cs h
    cases cs with
    | nil => rfl
    | cons c cs =>
      simp only [occursIn, Bool.or_eq_false_iff] at h
      rw [show pragmaSubFuel (n + 1) (c :: cs) = c :: pragmaSubFuel n cs
          by simp [pragmaSubFuel, h.1]]
      rw [ih cs h.2]

/-- No nonempty suffix of the pattern is a prefix of the replacement.
This is what makes a fresh match impossible anywhere inside or at the
seam of an inserted replacement. -/
theorem pat_tail_not_pre_repl : ∀ (x : List Char), x <:+ pragmaPat → x ≠ [] →
    x.isPrefixOf pragmaRepl = false := by
  have hall : ∀ x ∈ pragmaPat.tails, x = [] ∨ x.isPrefixOf pragmaRepl = false := by
    decide
  intro x hx hne
  have hmem : x ∈ pragmaPat.tails := (List.mem_tails _ _).mpr hx
  rcases hall x hmem with h | h
  · exact absurd h hne
  · exact h

/-- If a nonempty suffix of the pattern is a prefix of the substitution's
output, it was already a prefix of the input: the substitution creates no
new pattern-prefix at the front. -/
theorem pragma_pre_reflect : ∀ (n : Nat) (cs x : List Char),
    x <:+ pragmaPat → x ≠ [] → x.isPrefixOf (pragmaSubFuel n cs) = true →
    x.isPrefixOf cs = true := by
  intro n
  induction n with
  | zero => intro cs x _ _ h; exact h
  | succ n ih =>
    intro cs x hsuf hne hp
    cases cs with
    | nil =>
      cases x with
      | nil => exact absurd rfl hne
      | cons a x => simp [pragmaSubFuel, List.isPrefixOf] at hp
    | cons c cs =>
      by_cases hm : pragmaPat.isPrefixOf (c :: cs) = true
      · rw [show pragmaSubFuel (n + 1) (c :: cs)
              = pragmaRepl ++ pragmaSubFuel n (List.drop pragmaPat.length (c :: cs))
            by simp [pragmaSubFuel, hm]] at hp
        have hxlen : x.length ≤ pragmaRepl.length := by
          have h1 : x.length ≤ pragmaPat.length := hsuf.length_le
          have h2 : pragmaPat.length = pragmaRepl.length := by decide
          omega
        have := isPre_append_left x pragmaRepl _ hxlen hp
        rw [pat_tail_not_pre_repl x hsuf hne] at this
        exact absurd this (by simp)
      · rw [show pragmaSubFuel (n + 1) (c :: cs) = c :: pragmaSubFuel n cs
            by simp [pragmaSubFuel, hm]] at hp
        cases x with
        | nil => exact absurd rfl hne
        | cons a x =>
          simp only [List.isPrefixOf, Bool.and_eq_true, beq_iff_eq] at hp ⊢
          refine ⟨hp.1, ?_⟩
          by_cases hx : x = []
          · subst hx; simp
          · have hsuf2 : x <:+ pragmaPat := by
              have h1 : x <:+ a :: x := ⟨[a], rfl⟩
              exact h1.trans hsuf
            exact ih cs x hsuf2 hx hp.2

/-- The replacement glued onto any continuation contains an occurrence of
the pattern exactly where the continuation does: scanning through the
replacement finds nothing. -/
theorem occursIn_repl_append (o : List Char) :
    occursIn pragmaPat (pragmaRepl ++ o) = occursIn pragmaPat o := rfl

/-- The output of the pragma substitution contains no occurrence of the
pattern (fuel at least the input length). -/
theorem pragma_out_noOcc : ∀ (n : Nat) (cs : List Char), cs.length ≤ n →
    occursIn pragmaPat (pragmaSubFuel n cs) = false := by
  intro n
  induction n with
  | zero =>
    intro cs h
    have : cs = [] := List.length_eq_zero.mp (Nat.le_zero.mp h)
    subst this
    rfl
  | succ n ih =>
    intro cs hlen
    cases cs with
    | nil => rfl
    | cons c cs =>
      by_cases hm : pragmaPat.isPrefixOf (c :: cs) = true
      · rw [show pragmaSubFuel (n + 1) (c :: cs)
              = pragmaRepl ++ pragmaSubFuel n (List.drop pragmaPat.length (c :: cs))
            by simp [pragmaSubFuel, hm]]
        rw [occursIn_repl_append]
        apply ih
        have : (List.drop pragmaPat.length (c :: cs)).length
            = (c :: cs).length - pragmaPat.length := List.length_drop _ _
        simp only [List.length_cons] at this hlen
        have hpp : pragmaPat.length = 24 := by decide
        omega
      · rw [show pragmaSubFuel (n + 1) (c :: cs) = c :: pragmaSubFuel n cs
            by simp [pragmaSubFuel, hm]]
        have hcs : cs.length ≤ n := by
          simp only [List.length_cons] at hlen
          omega
        simp only [occursIn, Bool.or_eq_false_iff]
        refine ⟨?_, ih cs hcs⟩
        by_contra hcon
        rw [Bool.not_eq_false] at hcon
        rw [pragmaPat_cons] at hcon
        simp only [List.isPrefixOf, Bool.and_eq_true, beq_iff_eq] at hcon
        have htail := ih cs hcs
        have hsufx : List.drop 1 pragmaPat <:+ pragmaPat := List.drop_suffix _ _
        have hnex : List.drop 1 pragmaPat ≠ [] := by decide
        have hxcs := pragma_pre_reflect n cs _ hsufx hnex hcon.2
        have : pragmaPat.isPrefixOf (c :: cs) = true := by
          rw [pragmaPat_cons]
          simp only [List.isPrefixOf, Bool.and_eq_true, beq_iff_eq]
          exact ⟨hcon.1, hxcs⟩
        exact hm this

/-- Idempotence of the pragma substitution on strings. -/
theorem pragmaSub_fix (s : String) : pragmaSub (pragmaSub s) = pragmaSub s := by
  show String.mk (pragmaSubFuel (pragmaSubFuel s.data.length s.data).length
      (pragmaSubFuel s.data.length s.data)) = pragmaSub s
  rw [pragma_noOcc_id _ _ (pragma_out_noOcc s.data.length s.data (Nat.le_refl _))]
  rfl

/-! ### The revert rule: general lemmas -/

/-- Text with no regex match is a fixed point of the revert substitution,
for any amount of fuel. -/
theorem revert_noMatch_id : ∀ (n : Nat) (cs : List Char),
    hasRevertMatch cs = false → revertSubFuel n cs = cs := by
  intro n
  induction n with
  | zero => intro cs _; rfl
  | succ n ih =>
    intro cs h
    cases cs with
    | nil => rfl
    | cons c cs =>
      simp only [hasRevertMatch, Bool.or_eq_false_iff] at h
      have hnone : matchRevertAt (c :: cs) = none := by
        cases hm : matchRevertAt (c :: cs) with
        | none => rfl
        | some v => rw [hm] at h; simp at h
      simp only [revertSubFuel, hnone]
      rw [ih cs h.2]

/-- A no-match string is a fixed point of the revert substitution. -/
theorem revertSub_id_of_noMatch (s : String)
    (h : hasRevertMatch s.data = false) : revertSub s = s := by
  show String.mk (revertSubFuel s.data.length s.data) = s
  rw [revert_noMatch_id _ _ h]

/-- An occurrence-free string is a fixed point of the pragma substitution. -/
theorem pragmaSub_id_of_noOcc (s : String)
    (h : occursIn pragmaPat s.data = false) : pragmaSub s = s := by
  show String.mk (pragmaSubFuel s.data.length s.data) = s
  rw [pragma_noOcc_id _ _ h]

/-- The pragma substitution leaves no occurrence of the pattern behind. -/
theorem pragmaSub_out_noOcc (s : String) :
    occursIn pragmaPat (pragmaSub s).data = false :=
  pragma_out_noOcc s.data.length s.data (Nat.le_refl _)

/-! ### Per-file and run-level lemmas -/

theorem printsOf_append : ∀ (a b : List Event),
    printsOf (a ++ b) = printsOf a ++ printsOf b := by
  intro a b
  induction a with
  | nil => rfl
  | cons e a ih =>
    cases e with
    | read p => simpa [printsOf] using ih
    | write p c => simpa [printsOf] using ih
    | print s => simpa [printsOf] using ih

theorem processOne_not_sol (sub rep : String → String) (f : SimFile)
    (h : endswith f.name ".sol" = false) : processOne sub rep f = (f, []) := by
  simp [processOne, h]

theorem processOne_sol_unchanged (sub rep : String → String) (f : SimFile)
    (h1 : endswith f.name ".sol" = true) (h2 : sub f.content = f.content) :
    processOne sub rep f = (f, [Event.read (filePath f)]) := by
  simp [processOne, h1, h2]

theorem processOne_sol_changed (sub rep : String → String) (f : SimFile)
    (h1 : endswith f.name ".sol" = true) (h2 : sub f.content ≠ f.content) :
    processOne sub rep f
      = (SimFile.mk f.dir f.name (sub f.content),
         [Event.read (filePath f), Event.write (filePath f) (sub f.content),
          Event.print (rep (filePath f))]) := by
  simp [processOne, h1, h2]

theorem processOne_prints (sub rep : String → String) (f : SimFile) :
    printsOf (processOne sub rep f).2
      = if modifiedB sub f = true then [rep (filePath f)] else [] := by
  cases h1 : endswith f.name ".sol" with
  | false => simp [processOne_not_sol sub rep f h1, modifiedB, h1, printsOf]
  | true =>
    by_cases h2 : sub f.content = f.content
    · simp [processOne_sol_unchanged sub rep f h1 h2, modifiedB, h1, h2, printsOf]
    · simp [processOne_sol_changed sub rep f h1 h2, modifiedB, h1, h2, printsOf]

theorem runRewriter_prints (sub rep : String → String) : ∀ (files : List SimFile),
    printsOf (runRewriter sub rep files).2
      = (files.filter (modifiedB sub)).map (fun f => rep (filePath f)) := by
  intro files
  induction files with
  | nil => rfl
  | cons f fs ih =>
    show printsOf ((processOne sub rep f).2 ++ (runRewriter sub rep fs).2) = _
    rw [printsOf_append, ih, processOne_prints]
    by_cases hmod : modifiedB sub f = true
    · simp [List.filter_cons, hmod]
    · simp [List.filter_cons, hmod]

theorem processOne_hasWrite (sub rep : String → String) (f : SimFile)
    (h1 : endswith f.name ".sol" = true) :
    hasWriteEvent (processOne sub rep f).2 = true ↔ sub f.content ≠ f.content := by
  by_cases h2 : sub f.content = f.content
  · simp [processOne_sol_unchanged sub rep f h1 h2, hasWriteEvent, h2]
  · simp [processOne_sol_changed sub rep f h1 h2, hasWriteEvent, h2]

theorem osWalkFiles_missing (fs : FileSys) (root : String)
    (h : fs.dirs.contains root = false) : osWalkFiles fs root = [] := by
  simp only [osWalkFiles]
  rw [if_neg (by simpa using h)]

/-! ### The claims -/

/-- C1: every file the rewriter processes (its name ends in `.sol`) ends up
with content equal to the substitution applied exactly once to its original
content — and, when the pattern has no match (for either concrete rule),
byte-identical to the original. -/
theorem claim_C1_single_full_substitution (sub rep : String → String)
    (f : SimFile) (h : endswith f.name ".sol" = true) :
    (processOne sub rep f).1.content = sub f.content
    ∧ (hasRevertMatch f.content.data = false →
        (processOne revertSub rep f).1.content = f.content)
    ∧ (occursIn pragmaPat f.content.data = false →
        (processOne pragmaSub rep f).1.content = f.content) := by
  refine ⟨?_, ?_, ?_⟩
  · by_cases h2 : sub f.content = f.content
    · rw [processOne_sol_unchanged sub rep f h h2]
      exact h2.symm
    · rw [processOne_sol_changed sub rep f h h2]
  · intro hnm
    rw [processOne_sol_unchanged _ rep f h (revertSub_id_of_noMatch _ hnm)]
  · intro hno
    rw [processOne_sol_unchanged _ rep f h (pragmaSub_id_of_noOcc _ hno)]

theorem claim_C1_witness :
    (processOne revertSub reportFixed (SimFile.mk "d" "A.sol" "revertFoo();")).1.content
      = revertSub (SimFile.mk "d" "A.sol" "revertFoo();").content
    ∧ (hasRevertMatch (SimFile.mk "d" "A.sol" "revertFoo();").content.data = false →
        (processOne revertSub reportFixed
            (SimFile.mk "d" "A.sol" "revertFoo();")).1.content
          = (SimFile.mk "d" "A.sol" "revertFoo();").content)
    ∧ (occursIn pragmaPat (SimFile.mk "d" "A.sol" "revertFoo();").content.data = false →
        (processOne pragmaSub reportFixed
            (SimFile.mk "d" "A.sol" "revertFoo();")).1.content
          = (SimFile.mk "d" "A.sol" "revertFoo();").content) :=
  claim_C1_single_full_substitution revertSub reportFixed
    (SimFile.mk "d" "A.sol" "revertFoo();") (by decide)

/-- C2 is false as stated: the revert-spacing rule is not idempotent.  On
the input `revertFrevertA();` the first pass yields `revert FrevertA();`,
in which the pattern matches again (inside the identifier), so a second
pass yields `revert Frevert A();`. -/
theorem claim_C2_counterexample :
    revertSub (revertSub "revertFrevertA();") ≠ revertSub "revertFrevertA();" := by
  decide

/-- C2 (amended): the pragma substitution rule is idempotent —
`pragmaSub (pragmaSub x) = pragmaSub x` for every input text `x`.  (The
revert-spacing rule is not; see the counterexample.) -/
theorem claim_C2_amended_pragma_idem (s : String) :
    pragmaSub (pragmaSub s) = pragmaSub s :=
  pragmaSub_fix s

/-- C3: `revertInsufficientBalance();` becomes
`revert InsufficientBalance();`, and the already-spaced
`revert AlreadySet();` is unchanged. -/
theorem claim_C3_capture_correctness :
    revertSub "revertInsufficientBalance();" = "revert InsufficientBalance();"
    ∧ revertSub "revert AlreadySet();" = "revert AlreadySet();" := by
  decide

/-- C4: every occurrence of `pragma solidity =0.8.15;` is replaced by
`pragma solidity ^0.8.20;` (none remains in the output), and a text with
no occurrence — e.g. one with `pragma solidity ^0.8.19;` — is unchanged. -/
theorem claim_C4_literal_replacement :
    pragmaSub "pragma solidity =0.8.15;" = "pragma solidity ^0.8.20;"
    ∧ pragmaSub "A\npragma solidity =0.8.15;\nB\npragma solidity =0.8.15;\nC"
        = "A\npragma solidity ^0.8.20;\nB\npragma solidity ^0.8.20;\nC"
    ∧ (∀ s : String, occursIn pragmaPat (pragmaSub s).data = false)
    ∧ (∀ s : String, occursIn pragmaPat s.data = false → pragmaSub s = s)
    ∧ pragmaSub "pragma solidity ^0.8.19;" = "pragma solidity ^0.8.19;" :=
  ⟨by decide, by decide, pragmaSub_out_noOcc, pragmaSub_id_of_noOcc, by decide⟩

theorem claim_C4_witness :
    occursIn pragmaPat "contract C".data = false
    ∧ pragmaSub "contract C" = "contract C" :=
  ⟨by decide, claim_C4_literal_replacement.2.2.2.1 "contract C" (by decide)⟩

/-- C5: a file that matches the extension filter but has no pattern match
is read but left byte-identical, with no write and no report; a write back
happens if and only if the substituted content differs from the original. -/
theorem claim_C5_noop_preservation (f : SimFile)
    (h : endswith f.name ".sol" = true) :
    (hasRevertMatch f.content.data = false →
      processOne revertSub reportFixed f = (f, [Event.read (filePath f)]))
    ∧ (occursIn pragmaPat f.content.data = false →
      processOne pragmaSub reportUpdated f = (f, [Event.read (filePath f)]))
    ∧ (∀ (sub rep : String → String),
        hasWriteEvent (processOne sub rep f).2 = true ↔ sub f.content ≠ f.content) := by
  refine ⟨?_, ?_, fun sub rep => processOne_hasWrite sub rep f h⟩
  · intro hnm
    exact processOne_sol_unchanged _ _ f h (revertSub_id_of_noMatch _ hnm)
  · intro hno
    exact processOne_sol_unchanged _ _ f h (pragmaSub_id_of_noOcc _ hno)

theorem claim_C5_witness :
    (hasRevertMatch (SimFile.mk "d" "A.sol" "contract A").content.data = false →
      processOne revertSub reportFixed (SimFile.mk "d" "A.sol" "contract A")
        = (SimFile.mk "d" "A.sol" "contract A",
           [Event.read (filePath (SimFile.mk "d" "A.sol" "contract A"))]))
    ∧ (occursIn pragmaPat (SimFile.mk "d" "A.sol" "contract A").content.data = false →
      processOne pragmaSub reportUpdated (SimFile.mk "d" "A.sol" "contract A")
        = (SimFile.mk "d" "A.sol" "contract A",
           [Event.read (filePath (SimFile.mk "d" "A.sol" "contract A"))]))
    ∧ (∀ (sub rep : String → String),
        hasWriteEvent (processOne sub rep (SimFile.mk "d" "A.sol" "contract A")).2 = true
          ↔ sub (SimFile.mk "d" "A.sol" "contract A").content
            ≠ (SimFile.mk "d" "A.sol" "contract A").content) :=
  claim_C5_noop_preservation (SimFile.mk "d" "A.sol" "contract A") (by decide)

/-- C6: a file whose name does not end with the exact case-sensitive suffix
`.sol` is never read, modified, or reported (its event trace is empty and
its state unchanged); names like `X.SOL` and `X.solx` do not match. -/
theorem claim_C6_selectivity :
    (∀ (sub rep : String → String) (f : SimFile),
        endswith f.name ".sol" = false → processOne sub rep f = (f, []))
    ∧ endswith "X.SOL" ".sol" = false
    ∧ endswith "X.solx" ".sol" = false :=
  ⟨processOne_not_sol, by decide, by decide⟩

theorem claim_C6_witness :
    processOne revertSub reportFixed (SimFile.mk "d" "X.SOL" "revertFoo();")
      = (SimFile.mk "d" "X.SOL" "revertFoo();", []) :=
  claim_C6_selectivity.1 revertSub reportFixed
    (SimFile.mk "d" "X.SOL" "revertFoo();") (by decide)

/-- C7: when the configured root directory does not exist, the walk yields
no files, so the run touches nothing, reports nothing, and raises no error
(the pragma script still prints its unconditional `Done!`). -/
theorem claim_C7_missing_root (fs : FileSys) :
    (fs.dirs.contains contracts_dir = false → fixRevertScript fs = ([], []))
    ∧ (fs.dirs.contains periphery_dir = false →
        fixSolidityScript fs = ([], [Event.print "Done!"])) := by
  constructor
  · intro h
    simp [fixRevertScript, osWalkFiles_missing fs _ h, runRewriter]
  · intro h
    simp [fixSolidityScript, osWalkFiles_missing fs _ h, runRewriter]

theorem claim_C7_witness :
    (FileSys.mk [] []).dirs.contains contracts_dir = false
    ∧ fixRevertScript (FileSys.mk [] []) = ([], [])
    ∧ fixSolidityScript (FileSys.mk [] []) = ([], [Event.print "Done!"]) :=
  ⟨by decide, (claim_C7_missing_root (FileSys.mk [] [])).1 (by decide),
   (claim_C7_missing_root (FileSys.mk [] [])).2 (by decide)⟩

/-- C8: a single file containing both `revertFoo();` and `revertBar();`
has both corrected in one pass, and is reported exactly once (one console
line, not one per match). -/
theorem claim_C8_multi_match_single_pass :
    processOne revertSub reportFixed
        (SimFile.mk contracts_dir "A.sol" "revertFoo();\nrevertBar();")
      = (SimFile.mk contracts_dir "A.sol" "revert Foo();\nrevert Bar();",
         [Event.read (contracts_dir ++ "\\A.sol"),
          Event.write (contracts_dir ++ "\\A.sol") "revert Foo();\nrevert Bar();",
          Event.print ("Fixed " ++ (contracts_dir ++ "\\A.sol"))])
    ∧ (printsOf (processOne revertSub reportFixed
        (SimFile.mk contracts_dir "A.sol" "revertFoo();\nrevertBar();")).2).length
      = 1 := by
  decide

/-- C9: the console output is exactly one `Fixed <path>` line per modified
file for the revert script and one `Updated: <path>` line per modified
file for the pragma script, the latter followed by a single unconditional
final `Done!` line. -/
theorem claim_C9_console_output (fs : FileSys) :
    printsOf (fixRevertScript fs).2
      = ((osWalkFiles fs contracts_dir).filter (modifiedB revertSub)).map
          (fun f => "Fixed " ++ filePath f)
    ∧ printsOf (fixSolidityScript fs).2
      = ((osWalkFiles fs periphery_dir).filter (modifiedB pragmaSub)).map
          (fun f => "Updated: " ++ filePath f) ++ ["Done!"] := by
  constructor
  · exact runRewriter_prints revertSub reportFixed (osWalkFiles fs contracts_dir)
  · show printsOf ((runRewriter pragmaSub reportUpdated
        (osWalkFiles fs periphery_dir)).2 ++ [Event.print "Done!"]) = _
    rw [printsOf_append, runRewriter_prints]
    rfl

/-- C10: the pattern has no word-boundary anchor, so `revert` matching as
the tail of a longer identifier is also rewritten: `dontrevertFoo();`
becomes `dontrevert Foo();`. -/
theorem claim_C10_lexical_rewrite :
    revertSub "dontrevertFoo();" = "dontrevert Foo();" := by
  decide

end Web3Study
